import Mathlib

/-!
Shallow Lean embedding of the Homeland-sees surveillance-camera orchestration
layer (`main.py`, `recorder.py`, `bot_handler.py`).

Strings of the Python source are modelled as `List Char` (Python compares
strings by code point, which coincides with `Char.toNat` comparison), so that
every definition evaluates inside the Lean kernel.  Effectful loops are
modelled as functions over an explicit finite trace of environment outcomes
(one outcome per loop iteration); exhausting the trace corresponds to the
thread's running flag being cleared.
-/

namespace HomelandSees

/-! ## Constants from the source -/

/-- `SEND_FILE_TRIES_MAX = 3` in `bot_handler.py`. -/
def SEND_FILE_TRIES_MAX : Nat := 3

/-- `VIDEO_ID_LENGTH = 12` in `bot_handler.py`. -/
def VIDEO_ID_LENGTH : Nat := 12

/-- `START_ATTEMPTS = 3` in `recorder.py`. -/
def START_ATTEMPTS : Nat := 3

/-- The literal `range(3)` bound of the hard-kill loop in `Recorder.stop`. -/
def HARD_KILL_TIMES : Nat := 3

/-- `MINIMUM_FILE_SIZE = 1000000` in `main.py`. -/
def MINIMUM_FILE_SIZE : Nat := 1000000

/-! ## Recorder.stop (`recorder.py`, lines 152-228)

`stop` is modelled as a function from the relevant state (`hasProcess`:
whether `self._process is not None`; `fromSelf`; the attempts counter) and the
environment's behaviour (whether the process is still alive at the `poll()`
check, whether the graceful `terminate`/`wait` succeeds within the timeout,
how many of the four extra `terminate` iterations run before the process
exits, whether the process is still alive after the final 1s sleep) to the
new attempts counter together with the trace of termination actions issued. -/

/-- One process-termination action issued by `Recorder.stop`. -/
inductive StopAction
  | terminate
  | kill
  | hardKill
deriving DecidableEq, Repr

/-- The attempts counter after `Recorder.stop`: reset to 0 only when a process
handle exists and `from_self` is false (the reset sits after the
`self._process is None` early return). -/
def recStopAttempts (hasProcess fromSelf : Bool) (attempts : Nat) : Nat :=
  if hasProcess then (if fromSelf then attempts else 0) else attempts

/-- The trace of termination actions issued by `Recorder.stop`.
`extraTerm ≤ 4` is the number of iterations of the `for _ in range(4)`
terminate loop that run before `poll()` reports the process gone. -/
def recStopActions (hasProcess procAlive gracefulOk : Bool) (extraTerm : Nat)
    (aliveAfterWait : Bool) : List StopAction :=
  if hasProcess then
    (if procAlive then
      (if gracefulOk then [StopAction.terminate]
       else [StopAction.terminate]
            ++ List.replicate (min extraTerm 4) StopAction.terminate
            ++ (if aliveAfterWait then [StopAction.kill] else []))
     else [])
    ++ List.replicate HARD_KILL_TIMES StopAction.hardKill
  else []

/-! ## Recorder.start (`recorder.py`, lines 52-150)

Each recursive call of `start` makes one launch attempt; the environment's
verdict on that attempt is one `StartOutcome`: the `frame=` marker was seen
within `START_RECORDING_TIMEOUT` (`markerFound`), the watchdog timed out
(`timeoutFail`), or `self._process.poll()` was not `None` right after launch
(`launchFail`, the `else` branch returning `None` directly).  `recStart`
consumes one outcome per attempt and returns the final attempts counter, the
number of launch attempts made, and whether an output directory was
returned. -/

/-- Environment verdict on one launch attempt of `Recorder.start`. -/
inductive StartOutcome
  | markerFound
  | timeoutFail
  | launchFail
deriving DecidableEq, Repr

/-- `Recorder.start` over a trace of per-attempt outcomes, carrying the
`self._attempts` counter.  Returns (final attempts counter, number of launch
attempts made, whether start succeeded). -/
def recStart : List StartOutcome → Nat → Nat × Nat × Bool
  | [], a => (a, 0, false)
  | o :: rest, a =>
    match o with
    | StartOutcome.markerFound => (0, 1, true)
    | StartOutcome.launchFail => (a + 1, 1, false)
    | StartOutcome.timeoutFail =>
      if START_ATTEMPTS ≤ a + 1 then (0, 1, false)
      else
        let r := recStart rest (a + 1)
        (r.1, r.2.1 + 1, r.2.2)

/-! ## BotHandler._send_text_or_video retry loop (`bot_handler.py`, lines 287-377)

The `while self._sending_thread_running` retry loop is driven by a finite
trace of per-attempt outcomes: the send succeeded (`success`), raised
`telegram.error.NetworkError` (`netError`), or raised any other exception
(`otherError`).  Exhausting the trace models the running flag going false.
The loop carries `tries_counter`; `sendLoop` returns the number of send
attempts performed and whether a send succeeded. -/

/-- Outcome of one send attempt inside `_send_text_or_video`. -/
inductive SendOutcome
  | success
  | netError
  | otherError
deriving DecidableEq, Repr

/-- The `tries_counter` update performed in the `except` branch of
`_send_text_or_video`: a `NetworkError` resets the counter to 1, any other
exception increments it. -/
def sendTriesUpdate (tries : Nat) : SendOutcome → Nat
  | SendOutcome.success => tries
  | SendOutcome.netError => 1
  | SendOutcome.otherError => tries + 1

/-- The retry loop of `_send_text_or_video` over a trace of attempt outcomes,
carrying `tries_counter`.  Returns (number of send attempts made, whether the
send succeeded).  After each failure the code breaks out of the loop when
`tries_counter >= SEND_FILE_TRIES_MAX`. -/
def sendLoop : List SendOutcome → Nat → Nat × Bool
  | [], _ => (0, false)
  | o :: rest, tries =>
    match o with
    | SendOutcome.success => (1, true)
    | SendOutcome.netError =>
      if SEND_FILE_TRIES_MAX ≤ 1 then (1, false)
      else
        let r := sendLoop rest 1
        (r.1 + 1, r.2)
    | SendOutcome.otherError =>
      if SEND_FILE_TRIES_MAX ≤ tries + 1 then (1, false)
      else
        let r := sendLoop rest (tries + 1)
        (r.1 + 1, r.2)

/-! ## BotHandler._sending_thread_loop consumer (`bot_handler.py`, lines 207-264)

Queue items are `Option (List Char)`: `none` is the shutdown sentinel
(`None`), `some s` a job string.  The loop breaks on the sentinel, processes
`video_`/`text_` jobs, and — in the final `else` branch — `return`s from the
thread function on any other string, which terminates the consumer thread.
`consumeQueue` returns the payloads of the jobs actually processed, in
order. -/

/-- Python `str.startswith` on code-point lists. -/
def strStartsWith : List Char → List Char → Bool
  | _, [] => true
  | [], _ :: _ => false
  | c :: cs, p :: ps => if c = p then strStartsWith cs ps else false

/-- The `"video_"` job tag. -/
def videoTag : List Char := ['v', 'i', 'd', 'e', 'o', '_']

/-- The `"text_"` job tag. -/
def textTag : List Char := ['t', 'e', 'x', 't', '_']

/-- The consumer loop of `_sending_thread_loop` over the queue contents,
returning the payloads (tag stripped) of the jobs it processes.  A malformed
job string (neither tag matches) hits the `else: ... return` branch: the
function returns and nothing further is consumed. -/
def consumeQueue : List (Option (List Char)) → List (List Char)
  | [] => []
  | none :: _ => []
  | some s :: rest =>
    if strStartsWith s videoTag then s.drop 6 :: consumeQueue rest
    else if strStartsWith s textTag then s.drop 5 :: consumeQueue rest
    else []

/-! ## Video id generation (`bot_handler.py`, lines 228-230)

`while not video_id or video_id in messages: video_id = "".join(choices(...))`
is modelled with the randomness reified as a list of index samples, one
sample (a list of indices into the alphabet) per loop iteration.  An empty
string is falsy in Python, so the loop also regenerates on an empty
candidate. -/

/-- `ascii_uppercase + ascii_lowercase + digits`, the id alphabet. -/
def videoIdAlphabet : List Char :=
  (List.range 26).map (fun i => Char.ofNat (65 + i))
    ++ (List.range 26).map (fun i => Char.ofNat (97 + i))
    ++ (List.range 10).map (fun i => Char.ofNat (48 + i))

/-- One candidate id built from one `choices(...)` sample of alphabet
indices. -/
def idFromSample (sample : List (Fin videoIdAlphabet.length)) : List Char :=
  sample.map (fun i => videoIdAlphabet.get i)

/-- The id-generation loop over the reified randomness: keep sampling while
the candidate is empty (falsy) or collides with a key of the loaded
database.  Returns `none` only if the randomness trace is exhausted. -/
def genVideoId (keys : List (List Char)) :
    List (List (Fin videoIdAlphabet.length)) → Option (List Char)
  | [] => none
  | sample :: rest =>
    let cand := idFromSample sample
    if cand = [] ∨ cand ∈ keys then genVideoId keys rest else some cand

/-! ## Interrupt counter update (`main.py`, lines 174-204)

Times are seconds as integers.  `todayStart` stands for
`datetime.combine(datetime.today(), datetime.min.time())` (local midnight of
the current event's day); `today_end = today_start + timedelta(days=1) -
timedelta(seconds=1)`.  The stored counter is reset to 0 when the stored
timestamp lies strictly before `today_start` or strictly after `today_end`,
and is then incremented for the current event. -/

/-- The interrupt-counter update of `main.py` for a real (sensor-origin)
event: `lastTs`/`count` are the values read from `.interrupts`, `todayStart`
is local midnight of the current event's day.  Returns the counter written
back. -/
def updateInterrupts (todayStart lastTs : Int) (count : Nat) : Nat :=
  let todayEnd := todayStart + 86400 - 1
  let c := if lastTs < todayStart ∨ todayEnd < lastTs then 0 else count
  c + 1

/-! ## Stop-condition / grace timer portion of the main loop
(`main.py`, lines 239-270)

State carried across ticks: the `recording` flag and `door_closed_timer`
(0 meaning "no timer armed", otherwise the `time.time()` at which the stop
condition was first observed).  Inputs of one tick: the current time, the
sensor reading, the pause flag, and `recorder_.recording`.  Outputs: the new
state, whether the light was turned off, and whether `recorder_.stop()` was
invoked this tick.  The cancel branch ("Cancel timer if door opened again")
runs after the stop-condition branch, exactly as in the source. -/

/-- Main-loop state relevant to the grace-timer logic. -/
structure LoopState where
  recording : Bool
  doorClosedTimer : Nat
deriving DecidableEq, Repr

/-- Inputs read by one tick of the stop-condition logic. -/
structure TickIn where
  now : Nat
  doorOpened : Bool
  pauseRequested : Bool
  recRecording : Bool
deriving DecidableEq, Repr

/-- One tick of the stop-condition and timer-cancel logic of the main loop
with grace duration `grace` (`config["record_extra"]`).  Returns
(new state, light turned off, `recorder_.stop()` invoked). -/
def stopTick (grace : Nat) (s : LoopState) (i : TickIn) :
    LoopState × Bool × Bool :=
  let r :=
    if s.recording ∧ (¬ i.doorOpened ∨ i.pauseRequested) then
      if s.doorClosedTimer = 0 then
        ({ s with doorClosedTimer := i.now }, false, false)
      else if grace < i.now - s.doorClosedTimer then
        (⟨false, 0⟩, true, i.recRecording)
      else (s, false, false)
    else (s, false, false)
  let s1 := r.1
  if i.doorOpened ∧ s1.recording ∧ s1.doorClosedTimer ≠ 0 then
    ({ s1 with doorClosedTimer := 0 }, r.2.1, r.2.2)
  else r

/-- Run `stopTick` over a list of tick inputs, recording whether
`recorder_.stop()` was ever invoked. -/
def runStopTicks (grace : Nat) (s : LoopState) (ins : List TickIn) :
    LoopState × Bool :=
  ins.foldl
    (fun acc i =>
      let r := stopTick grace acc.1 i
      (r.1, acc.2 || r.2.2))
    (s, false)

/-! ## File discovery portion of the main loop (`main.py`, lines 272-292)

Filenames are code-point lists; `files.sort()` is Python's lexicographic
sort by code point, modelled by insertion sort over `lcLe`.  One tick takes
the directory listing (name, size pairs) and the loop state (`output_dir`
known?, `files_sent`, `recording`) and pops at most one file. -/

/-- Python string `<=` on code-point lists. -/
def lcLe : List Char → List Char → Bool
  | [], _ => true
  | _ :: _, [] => false
  | x :: xs, y :: ys =>
    if x.toNat = y.toNat then lcLe xs ys else decide (x.toNat < y.toNat)

/-- Insert into a `lcLe`-sorted list. -/
def insertFile (x : List Char) : List (List Char) → List (List Char)
  | [] => [x]
  | y :: ys => if lcLe x y then x :: y :: ys else y :: insertFile x ys

/-- `files.sort()`: lexicographic sort of filenames. -/
def sortFiles : List (List Char) → List (List Char)
  | [] => []
  | x :: xs => insertFile x (sortFiles xs)

/-- A directory entry: filename and size in bytes. -/
structure FileEntry where
  name : List Char
  size : Nat
deriving DecidableEq, Repr

/-- State carried by the file-discovery logic across ticks. -/
structure SendFilesState where
  outputDirKnown : Bool
  filesSent : List (List Char)
  recording : Bool
deriving DecidableEq, Repr

/-- The listing filtered by `files_sent`:
`[f for f in files if f not in files_sent]`. -/
def unsentNames (s : SendFilesState) (dirFiles : List FileEntry) :
    List (List Char) :=
  (dirFiles.map FileEntry.name).filter (fun f => f ∉ s.filesSent)

/-- `os.path.getsize` of a listed file, looked up in the directory
listing. -/
def sizeOfName (dirFiles : List FileEntry) (f : List Char) : Nat :=
  ((dirFiles.find? (fun e => e.name = f)).map FileEntry.size).getD 0

/-- One tick of the file-discovery logic: filter out already-sent names,
sort, and if the list is non-empty and (more than one file remains or
recording has stopped) pop the earliest file, mark it sent, and enqueue it
as a `video_` job when its size exceeds `MINIMUM_FILE_SIZE`; clear
`output_dir` when the popped file was the last one and recording has
stopped.  Returns (new state, enqueued filename if any). -/
def sendFilesTick (s : SendFilesState) (dirFiles : List FileEntry) :
    SendFilesState × Option (List Char) :=
  if s.outputDirKnown then
    let files := sortFiles (unsentNames s dirFiles)
    if files ≠ [] ∧ (1 < files.length ∨ ¬ s.recording) then
      let file := files.headI
      let rest := files.tail
      let sent := s.filesSent ++ [file]
      let enq := if MINIMUM_FILE_SIZE < sizeOfName dirFiles file
        then some file else none
      let dirKnown : Bool := ¬ (rest = [] ∧ ¬ s.recording)
      (⟨dirKnown, sent, s.recording⟩, enq)
    else (s, none)
  else (s, none)

/-! ## Video-record database and the Video-job path
(`bot_handler.py`, lines 219-243 and 319-329)

`video_messages.json` maps a video id to `{path, messages}` where `messages`
is the ordered list of `{chat_id, message_id}` pairs.  The dict is modelled
as an association list with Python-dict assignment semantics (update in
place when the key exists, append otherwise); `_write_video_messages`
rewrites the whole database, so persistence is modelled as the trace of
database snapshots written. -/

/-- One entry of `video_messages.json`: source path and the ordered
`(chat_id, message_id)` pairs of successfully sent copies. -/
structure VideoRecord where
  path : List Char
  messages : List (Nat × Nat)
deriving DecidableEq, Repr

/-- The database: association list from video id to record. -/
def VideoDb := List (List Char × VideoRecord)

/-- Dict lookup. -/
def dbGet (k : List Char) : VideoDb → Option VideoRecord
  | [] => none
  | p :: rest => if p.1 = k then some p.2 else dbGet k rest

/-- Python dict assignment `messages[video_id] = v`. -/
def dbSet (k : List Char) (v : VideoRecord) : VideoDb → VideoDb
  | [] => [(k, v)]
  | p :: rest => if p.1 = k then (k, v) :: rest else p :: dbSet k v rest

/-- One recipient of the per-user send loop: on a successful send
(`some mid`) the `(chat_id, message_id)` pair is appended to the record's
message list and the whole database written again (one more snapshot); an
abandoned recipient (`none`) changes nothing. -/
def videoSendStep (vid : List Char) (acc : VideoDb × List VideoDb)
    (u : Nat × Option Nat) : VideoDb × List VideoDb :=
  match u.2 with
  | none => acc
  | some mid =>
    match dbGet vid acc.1 with
    | none => acc
    | some rec0 =>
      let db2 := dbSet vid ⟨rec0.path, rec0.messages ++ [(u.1, mid)]⟩ acc.1
      (db2, acc.2 ++ [db2])

/-- The processing of one `video_` job for a generated id `vid` and payload
path `path`: the record `{path, messages: []}` is stored and the database
written (first snapshot) before the per-user loop; then the per-recipient
send loop runs.  `userResults` lists the configured video recipients in
order with `some mid` when `_send_text_or_video` got a message id for them
and `none` when the recipient was abandoned.  Returns the final database and
the trace of database snapshots written. -/
def processVideoJob (vid path : List Char) (db : VideoDb)
    (userResults : List (Nat × Option Nat)) : VideoDb × List VideoDb :=
  let db0 := dbSet vid ⟨path, []⟩ db
  userResults.foldl (videoSendStep vid) (db0, [db0])

/-- The `(recipient, message_id)` pairs of the successful sends, in order. -/
def successPairs (userResults : List (Nat × Option Nat)) : List (Nat × Nat) :=
  userResults.filterMap (fun u => u.2.map (fun mid => (u.1, mid)))

/-! ## Helper lemmas -/

/-- Without network errors the attempt count of the retry loop is bounded by
the remaining budget. -/
lemma sendLoop_attempts_bound (outcomes : List SendOutcome) :
    ∀ tries, tries < SEND_FILE_TRIES_MAX →
    SendOutcome.netError ∉ outcomes →
    (sendLoop outcomes tries).1 + tries ≤ SEND_FILE_TRIES_MAX := by
  induction outcomes with
  | nil =>
    intro tries h _
    simp only [sendLoop]
    omega
  | cons o rest ih =>
    intro tries h hn
    have hn' : SendOutcome.netError ∉ rest := fun hm => hn (List.mem_cons_of_mem _ hm)
    cases o with
    | success =>
      simp only [sendLoop]
      omega
    | netError => exact absurd (List.mem_cons_self _ _) hn
    | otherError =>
      simp only [sendLoop]
      by_cases hc : SEND_FILE_TRIES_MAX ≤ tries + 1
      · rw [if_pos hc]
        simp only [SEND_FILE_TRIES_MAX] at *
        omega
      · rw [if_neg hc]
        have := ih (tries + 1) (by omega) hn'
        simp only [SEND_FILE_TRIES_MAX] at *
        omega

/-! ## C1 — per-recipient send retry policy -/

/-- C1 counterexample: the claim says no recipient receives more than the
configured maximum number of send attempts (`SEND_FILE_TRIES_MAX = 3`), but
four consecutive `NetworkError` failures give the recipient four send
attempts, since every transient failure resets the counter to 1. -/
theorem sendLoop_network_errors_exceed_budget :
    (sendLoop [SendOutcome.netError, SendOutcome.netError, SendOutcome.netError,
      SendOutcome.netError] 0).1 = 4
    ∧ SEND_FILE_TRIES_MAX < 4 := by decide

/-- C1 amended: a transient transport failure resets the retry counter to 1
and never ends the loop by itself (it does not consume the budget); any
other failure increments the counter and the recipient is abandoned once the
counter reaches `SEND_FILE_TRIES_MAX = 3`; consequently, in the absence of
transient transport failures, no recipient receives more than
`SEND_FILE_TRIES_MAX` send attempts. -/
theorem send_retry_policy (outcomes rest : List SendOutcome) (tries : Nat)
    (hnet : SendOutcome.netError ∉ outcomes) :
    (sendLoop outcomes 0).1 ≤ SEND_FILE_TRIES_MAX
    ∧ sendLoop (SendOutcome.netError :: rest) tries
        = ((sendLoop rest 1).1 + 1, (sendLoop rest 1).2)
    ∧ (tries + 1 < SEND_FILE_TRIES_MAX →
        sendLoop (SendOutcome.otherError :: rest) tries
          = ((sendLoop rest (tries + 1)).1 + 1, (sendLoop rest (tries + 1)).2))
    ∧ (SEND_FILE_TRIES_MAX ≤ tries + 1 →
        sendLoop (SendOutcome.otherError :: rest) tries = (1, false)) := by
  refine ⟨?_, ?_, ?_, ?_⟩
  · have := sendLoop_attempts_bound outcomes 0 (by decide) hnet
    omega
  · simp only [sendLoop]
    rw [if_neg (by decide)]
  · intro h
    simp only [sendLoop]
    rw [if_neg (by omega)]
  · intro h
    simp only [sendLoop]
    rw [if_pos h]

/-- Witness for `send_retry_policy` at concrete inputs: three persistent
failures, a leading network error, and an abandonment at a full counter. -/
theorem send_retry_policy_witness :
    SendOutcome.netError
        ∉ [SendOutcome.otherError, SendOutcome.otherError, SendOutcome.otherError]
    ∧ ((sendLoop [SendOutcome.otherError, SendOutcome.otherError,
          SendOutcome.otherError] 0).1 ≤ SEND_FILE_TRIES_MAX
      ∧ sendLoop (SendOutcome.netError :: [SendOutcome.success]) 2
          = ((sendLoop [SendOutcome.success] 1).1 + 1, (sendLoop [SendOutcome.success] 1).2)
      ∧ (2 + 1 < SEND_FILE_TRIES_MAX →
          sendLoop (SendOutcome.otherError :: [SendOutcome.success]) 2
            = ((sendLoop [SendOutcome.success] 3).1 + 1, (sendLoop [SendOutcome.success] 3).2))
      ∧ (SEND_FILE_TRIES_MAX ≤ 2 + 1 →
          sendLoop (SendOutcome.otherError :: [SendOutcome.success]) 2 = (1, false))) :=
  ⟨by decide,
   send_retry_policy [SendOutcome.otherError, SendOutcome.otherError,
     SendOutcome.otherError] [SendOutcome.success] 2 (by decide)⟩

/-! ## C2 — hard-kill invocations in Recorder.stop -/

/-- C2 counterexample: the claim says the external hard-kill command is
invoked exactly 3 times on *every* call to `Recorder.stop()`, but when
`self._process is None` the method returns immediately and the hard-kill
command is not invoked at all. -/
theorem recStop_no_process_no_hard_kill :
    (recStopActions false true true 0 true).count StopAction.hardKill = 0
    ∧ (0 : Nat) ≠ HARD_KILL_TIMES := by decide

/-- C2 amended: on every `Recorder.stop()` call made while a subprocess
handle exists (`self._process` is not `None`), the external hard-kill command
is invoked exactly `HARD_KILL_TIMES = 3` times, regardless of whether the
process was still alive and of whether graceful termination succeeded. -/
theorem recStop_hard_kill_count (procAlive gracefulOk aliveAfterWait : Bool)
    (extraTerm : Nat) :
    (recStopActions true procAlive gracefulOk extraTerm
      aliveAfterWait).count StopAction.hardKill = HARD_KILL_TIMES := by
  cases procAlive <;> cases gracefulOk <;> cases aliveAfterWait <;>
    simp [recStopActions, HARD_KILL_TIMES, List.count_append, List.count_replicate,
      List.count_cons, List.count_nil]

/-! ## C3 — Recorder.start retry policy -/

/-- C3 counterexample: the claim says a subprocess launch failure is retried
up to `START_ATTEMPTS = 3` times and that the attempt counter is reset to 0
before returning failure; but on a launch failure (`poll()` not `None`)
`start` returns `None` after a single attempt without retrying (two more
attempt outcomes remain unconsumed) and with the counter left at 1. -/
theorem recStart_launch_fail_no_retry :
    recStart [StartOutcome.launchFail, StartOutcome.timeoutFail,
      StartOutcome.timeoutFail] 0 = (1, 1, false)
    ∧ (1 : Nat) ≠ 0 ∧ (1 : Nat) < START_ATTEMPTS := by decide

/-- C3 amended: a watchdog timeout is retried while fewer than
`START_ATTEMPTS = 3` attempts were made, and after the third consecutive
timeout `start` resets the attempt counter to 0 and returns failure, having
made exactly `START_ATTEMPTS` launch attempts; a subprocess launch failure
instead returns failure immediately after its single attempt, without
retrying and without resetting the counter. -/
theorem recStart_retry_policy (rest : List StartOutcome) (a : Nat) :
    recStart (List.replicate START_ATTEMPTS StartOutcome.timeoutFail ++ rest) 0
        = (0, START_ATTEMPTS, false)
    ∧ recStart (StartOutcome.launchFail :: rest) a = (a + 1, 1, false)
    ∧ (a + 1 < START_ATTEMPTS →
        recStart (StartOutcome.timeoutFail :: rest) a
          = ((recStart rest (a + 1)).1, (recStart rest (a + 1)).2.1 + 1,
             (recStart rest (a + 1)).2.2))
    ∧ (START_ATTEMPTS ≤ a + 1 →
        recStart (StartOutcome.timeoutFail :: rest) a = (0, 1, false)) := by
  refine ⟨?_, ?_, ?_, ?_⟩
  · simp [recStart, START_ATTEMPTS, List.replicate]
  · simp only [recStart]
  · intro h
    simp only [recStart]
    rw [if_neg (by omega)]
  · intro h
    simp only [recStart]
    rw [if_pos h]

/-- Witness for `recStart_retry_policy` at concrete inputs. -/
theorem recStart_retry_policy_witness :
    (recStart (List.replicate START_ATTEMPTS StartOutcome.timeoutFail
        ++ [StartOutcome.markerFound]) 0 = (0, START_ATTEMPTS, false)
      ∧ recStart (StartOutcome.launchFail :: [StartOutcome.markerFound]) 1 = (2, 1, false)
      ∧ (1 + 1 < START_ATTEMPTS →
          recStart (StartOutcome.timeoutFail :: [StartOutcome.markerFound]) 1
            = ((recStart [StartOutcome.markerFound] 2).1,
               (recStart [StartOutcome.markerFound] 2).2.1 + 1,
               (recStart [StartOutcome.markerFound] 2).2.2))
      ∧ (START_ATTEMPTS ≤ 1 + 1 →
          recStart (StartOutcome.timeoutFail :: [StartOutcome.markerFound]) 1
            = (0, 1, false)))
    ∧ 1 + 1 < START_ATTEMPTS :=
  ⟨recStart_retry_policy [StartOutcome.markerFound] 1, by decide⟩

/-! ## C8 — interrupt counter reset window -/

/-- C8: on a real door event the persisted interrupt counter becomes 1 when
the stored timestamp lies outside `[todayStart, todayStart + 86400 - 1]`
(local midnight to local midnight + 1 day − 1 s of the current event's day),
and `count + 1` otherwise. -/
theorem interrupt_counter_policy (todayStart lastTs : Int) (count : Nat) :
    ((lastTs < todayStart ∨ todayStart + 86400 - 1 < lastTs) →
      updateInterrupts todayStart lastTs count = 1)
    ∧ (todayStart ≤ lastTs ∧ lastTs ≤ todayStart + 86400 - 1 →
      updateInterrupts todayStart lastTs count = count + 1) := by
  constructor
  · intro h
    simp only [updateInterrupts]
    rw [if_pos h]
  · intro h
    simp only [updateInterrupts]
    rw [if_neg (by omega)]

/-- Witness for `interrupt_counter_policy`: a stale timestamp resets to 1, a
same-day timestamp increments. -/
theorem interrupt_counter_policy_witness :
    ((-5 : Int) < 0 ∨ (0 : Int) + 86400 - 1 < -5)
    ∧ updateInterrupts 0 (-5) 7 = 1
    ∧ ((0 : Int) ≤ 360 ∧ (360 : Int) ≤ 0 + 86400 - 1)
    ∧ updateInterrupts 0 360 7 = 8 :=
  ⟨by decide, (interrupt_counter_policy 0 (-5) 7).1 (by decide),
   by decide, (interrupt_counter_policy 0 360 7).2 (by decide)⟩

/-! ## C10 — malformed jobs terminate the consumer thread -/

/-- C10: if the consumer dequeues a job string that starts with neither
`video_` nor `text_`, the loop function returns: jobs queued before the
malformed one are each processed (one payload per job), the malformed job
itself is not processed, and every job queued after it is never processed —
the queue contents after the malformed item have no effect at all on what is
consumed. -/
theorem malformed_job_terminates_consumer (pre : List (List Char))
    (m : List Char) (post : List (Option (List Char)))
    (hpre : ∀ s ∈ pre, strStartsWith s videoTag = true
      ∨ strStartsWith s textTag = true)
    (hm1 : strStartsWith m videoTag = false)
    (hm2 : strStartsWith m textTag = false) :
    consumeQueue (pre.map some ++ some m :: post) = consumeQueue (pre.map some)
    ∧ (consumeQueue (pre.map some ++ some m :: post)).length = pre.length := by
  induction pre with
  | nil =>
    simp only [List.map_nil, List.nil_append, consumeQueue, hm1, hm2]
    simp
  | cons s rest ih =>
    have hs := hpre s (List.mem_cons_self _ _)
    have hrest : ∀ t ∈ rest, strStartsWith t videoTag = true
        ∨ strStartsWith t textTag = true :=
      fun t ht => hpre t (List.mem_cons_of_mem _ ht)
    have ih' := ih hrest
    rcases hs with hv | ht
    · simp only [List.map_cons, List.cons_append, consumeQueue, hv, if_true]
      simp only [List.append_eq, List.length_cons, ih'.1, ih'.2]
      exact ⟨trivial, by have h := ih'.1 ▸ ih'.2; omega⟩
    · by_cases hv : strStartsWith s videoTag = true
      · simp only [List.map_cons, List.cons_append, consumeQueue, hv, if_true]
        simp only [List.append_eq, List.length_cons, ih'.1, ih'.2]
        exact ⟨trivial, by have h := ih'.1 ▸ ih'.2; omega⟩
      · simp only [List.map_cons, List.cons_append, consumeQueue,
          Bool.not_eq_true] at hv ⊢
        simp only [hv, ht, Bool.false_eq_true, if_false, if_true]
        simp only [List.append_eq, List.length_cons, ih'.1, ih'.2]
        exact ⟨trivial, by have h := ih'.1 ▸ ih'.2; omega⟩

/-- Witness for `malformed_job_terminates_consumer`: one well-formed `video_`
job, then the malformed job `"bad"`, then a well-formed job that is never
processed. -/
theorem malformed_job_terminates_consumer_witness :
    (∀ s ∈ [videoTag ++ ['a']], strStartsWith s videoTag = true
      ∨ strStartsWith s textTag = true)
    ∧ strStartsWith ['b', 'a', 'd'] videoTag = false
    ∧ strStartsWith ['b', 'a', 'd'] textTag = false
    ∧ (consumeQueue ([videoTag ++ ['a']].map some
          ++ some ['b', 'a', 'd'] :: [some (textTag ++ ['z'])])
        = consumeQueue ([videoTag ++ ['a']].map some)
      ∧ (consumeQueue ([videoTag ++ ['a']].map some
          ++ some ['b', 'a', 'd'] :: [some (textTag ++ ['z'])])).length
        = [videoTag ++ ['a']].length) :=
  ⟨by decide, by decide, by decide,
   malformed_job_terminates_consumer [videoTag ++ ['a']] ['b', 'a', 'd']
     [some (textTag ++ ['z'])] (by decide) (by decide) (by decide)⟩

/-! ## C6 — video id freshness -/

/-- C6: whenever the id-generation loop of the Video-job path terminates
with an id, that id is not among the keys of the currently loaded database,
and (as every `choices(...)` sample has length `VIDEO_ID_LENGTH = 12`) it is
a 12-character string over the alphanumeric alphabet. -/
theorem gen_video_id_fresh (keys : List (List Char))
    (samples : List (List (Fin videoIdAlphabet.length)))
    (hlen : ∀ s ∈ samples, s.length = VIDEO_ID_LENGTH)
    (vid : List Char) (h : genVideoId keys samples = some vid) :
    vid ∉ keys ∧ vid.length = VIDEO_ID_LENGTH
    ∧ ∀ c ∈ vid, c ∈ videoIdAlphabet := by
  induction samples with
  | nil => exact absurd h (by simp [genVideoId])
  | cons sample rest ih =>
    have hrest : ∀ s ∈ rest, s.length = VIDEO_ID_LENGTH :=
      fun s hs => hlen s (List.mem_cons_of_mem _ hs)
    by_cases hc : idFromSample sample = [] ∨ idFromSample sample ∈ keys
    · simp only [genVideoId, if_pos hc] at h
      exact ih hrest h
    · simp only [genVideoId, if_neg hc] at h
      push_neg at hc
      cases h
      refine ⟨hc.2, ?_, ?_⟩
      · simp only [idFromSample, List.length_map]
        exact hlen sample (List.mem_cons_self _ _)
      · intro c hcmem
        simp only [idFromSample, List.mem_map] at hcmem
        obtain ⟨i, _, hi⟩ := hcmem
        exact hi ▸ videoIdAlphabet.get_mem i.1 i.2

/-- Witness for `gen_video_id_fresh`: one all-`'A'` sample against a database
holding the key `"A"`. -/
theorem gen_video_id_fresh_witness :
    (∀ s ∈ [List.replicate 12 (⟨0, by decide⟩ : Fin videoIdAlphabet.length)],
      s.length = VIDEO_ID_LENGTH)
    ∧ genVideoId [['A']]
        [List.replicate 12 (⟨0, by decide⟩ : Fin videoIdAlphabet.length)]
      = some (List.replicate 12 'A')
    ∧ (List.replicate 12 'A' ∉ [['A']]
      ∧ (List.replicate 12 'A').length = VIDEO_ID_LENGTH
      ∧ ∀ c ∈ List.replicate 12 'A', c ∈ videoIdAlphabet) :=
  ⟨by decide, by decide,
   gen_video_id_fresh [['A']]
     [List.replicate 12 (⟨0, by decide⟩ : Fin videoIdAlphabet.length)]
     (by decide) (List.replicate 12 'A') (by decide)⟩

/-! ## C4 — grace timer and stop condition -/

set_option maxRecDepth 4000 in
/-- C4 counterexample: the claim says a stop occurs whenever the session is
recording and (sensor closed OR pause requested) holds continuously for
longer than the grace duration.  With grace 10, pause requested and the
sensor open on every tick at times 1..20, the stop condition (pause) holds
continuously for 20 > 10 time units, yet the cancel branch ("Cancel timer if
door opened again") re-clears the timer on every tick because the sensor is
open, so the light is never turned off, `recorder_.stop()` is never invoked
and the session stays recording. -/
theorem pause_with_open_door_never_stops :
    runStopTicks 10 ⟨true, 0⟩
      ((List.range 12).map (fun k => ⟨k + 1, true, true, true⟩))
      = (⟨true, 0⟩, false)
    ∧ (10 : Nat) < 12 := by decide

/-- C4 amended: when the session is recording, (i) the first tick on which
the stop condition (sensor closed OR pause requested) is observed with the
sensor closed arms the grace timer with the current time; (ii) a tick on
which the stop condition holds, the timer is armed, and more than the grace
duration has elapsed turns the light off, invokes `RecordingSupervisor.stop`
(when the supervisor reports recording) and clears the session; (iii) any
tick on which the sensor is open with an armed, not-yet-elapsed timer
cancels the timer with no stop — hence the stop fires only if the sensor
stays closed throughout the grace window, and pause requested with the
sensor open never stops the session. -/
theorem grace_timer_policy (grace : Nat) (s : LoopState) (i : TickIn)
    (hrec : s.recording = true) :
    (s.doorClosedTimer = 0 → i.doorOpened = false →
      stopTick grace s i = (⟨true, i.now⟩, false, false))
    ∧ (s.doorClosedTimer ≠ 0 → (i.doorOpened = false ∨ i.pauseRequested = true) →
        grace < i.now - s.doorClosedTimer →
        stopTick grace s i = (⟨false, 0⟩, true, i.recRecording))
    ∧ (i.doorOpened = true → s.doorClosedTimer ≠ 0 →
        i.now - s.doorClosedTimer ≤ grace →
        stopTick grace s i = (⟨true, 0⟩, false, false)) := by
  obtain ⟨srec, stimer⟩ := s
  obtain ⟨now, door, pause, recrec⟩ := i
  simp only at hrec
  subst hrec
  refine ⟨?_, ?_, ?_⟩
  · intro h0 hdoor
    simp only at h0 hdoor
    subst h0
    subst hdoor
    simp [stopTick]
  · intro h0 hcond helapsed
    simp only at h0 hcond helapsed
    rcases hcond with hdoor | hp
    · subst hdoor
      simp [stopTick, h0, helapsed]
    · subst hp
      simp [stopTick, h0, helapsed]
  · intro hdoor h0 hne
    simp only at hdoor h0 hne
    subst hdoor
    have hlt : ¬ grace < now - stimer := by omega
    by_cases hp : pause = true
    · subst hp
      simp [stopTick, h0, hlt]
    · simp only [Bool.not_eq_true] at hp
      subst hp
      simp [stopTick, h0, hlt]

/-- Witness for `grace_timer_policy`: arming at time 5, firing at time 16
with grace 10, and cancelling at time 8 after a sensor re-open. -/
theorem grace_timer_policy_witness :
    (stopTick 10 ⟨true, 0⟩ ⟨5, false, false, true⟩ = (⟨true, 5⟩, false, false))
    ∧ (stopTick 10 ⟨true, 5⟩ ⟨16, false, false, true⟩ = (⟨false, 0⟩, true, true))
    ∧ (stopTick 10 ⟨true, 5⟩ ⟨8, true, false, true⟩ = (⟨true, 0⟩, false, false)) :=
  ⟨(grace_timer_policy 10 ⟨true, 0⟩ ⟨5, false, false, true⟩ rfl).1 rfl rfl,
   (grace_timer_policy 10 ⟨true, 5⟩ ⟨16, false, false, true⟩ rfl).2.1
     (by decide) (Or.inl rfl) (by decide),
   (grace_timer_policy 10 ⟨true, 5⟩ ⟨8, true, false, true⟩ rfl).2.2
     rfl (by decide) (by decide)⟩

/-! ## C5 — file discovery helper lemmas -/

lemma lcLe_refl (l : List Char) : lcLe l l = true := by
  induction l with
  | nil => rfl
  | cons x xs ih => simp [lcLe, ih]

lemma lcLe_total (a b : List Char) : lcLe a b = true ∨ lcLe b a = true := by
  induction a generalizing b with
  | nil => left; rfl
  | cons x xs ih =>
    cases b with
    | nil => right; rfl
    | cons y ys =>
      rcases Nat.lt_trichotomy x.toNat y.toNat with h | h | h
      · left; simp [lcLe, Nat.ne_of_lt h, h]
      · rcases ih ys with hh | hh
        · left; simp [lcLe, h, hh]
        · right; simp [lcLe, h.symm, hh]
      · right; simp [lcLe, Nat.ne_of_lt h, h]

lemma lcLe_trans (a b c : List Char) (hab : lcLe a b = true)
    (hbc : lcLe b c = true) : lcLe a c = true := by
  induction a generalizing b c with
  | nil => rfl
  | cons x xs ih =>
    cases b with
    | nil => simp [lcLe] at hab
    | cons y ys =>
      cases c with
      | nil => simp [lcLe] at hbc
      | cons z zs =>
        simp only [lcLe] at hab hbc ⊢
        by_cases hxy : x.toNat = y.toNat
        · rw [if_pos hxy] at hab
          by_cases hyz : y.toNat = z.toNat
          · rw [if_pos hyz] at hbc
            rw [if_pos (hxy.trans hyz)]
            exact ih ys zs hab hbc
          · rw [if_neg hyz] at hbc
            have hlt : y.toNat < z.toNat := of_decide_eq_true hbc
            rw [if_neg (by omega)]
            exact decide_eq_true (by omega)
        · rw [if_neg hxy] at hab
          have hlt : x.toNat < y.toNat := of_decide_eq_true hab
          by_cases hyz : y.toNat = z.toNat
          · rw [if_neg (by omega)]
            exact decide_eq_true (by omega)
          · rw [if_neg hyz] at hbc
            have hlt2 : y.toNat < z.toNat := of_decide_eq_true hbc
            rw [if_neg (by omega)]
            exact decide_eq_true (by omega)

lemma insertFile_length (x : List Char) (l : List (List Char)) :
    (insertFile x l).length = l.length + 1 := by
  induction l with
  | nil => rfl
  | cons y ys ih =>
    simp only [insertFile]
    split
    · simp
    · simp [ih]

lemma sortFiles_length (l : List (List Char)) :
    (sortFiles l).length = l.length := by
  induction l with
  | nil => rfl
  | cons x xs ih => simp [sortFiles, insertFile_length, ih]

lemma mem_insertFile {a x : List Char} {l : List (List Char)} :
    a ∈ insertFile x l ↔ a = x ∨ a ∈ l := by
  induction l with
  | nil => simp [insertFile]
  | cons y ys ih =>
    simp only [insertFile]
    split
    · simp [List.mem_cons]
    · simp only [List.mem_cons, ih]
      tauto

lemma mem_sortFiles {a : List Char} {l : List (List Char)} :
    a ∈ sortFiles l ↔ a ∈ l := by
  induction l with
  | nil => simp [sortFiles]
  | cons x xs ih => simp [sortFiles, mem_insertFile, ih]

/-- The head of the sorted listing is a member of the listing and a
lexicographic lower bound of it. -/
lemma sortFiles_head_min (l : List (List Char)) (hne : l ≠ []) :
    (sortFiles l).headI ∈ l ∧ ∀ a ∈ l, lcLe (sortFiles l).headI a = true := by
  induction l with
  | nil => exact absurd rfl hne
  | cons x xs ih =>
    by_cases hxs : xs = []
    · subst hxs
      simp [sortFiles, insertFile, lcLe_refl]
    · obtain ⟨hmem, hlb⟩ := ih hxs
      cases hs : sortFiles xs with
      | nil =>
        exfalso
        have := sortFiles_length xs
        rw [hs] at this
        exact hxs (List.length_eq_zero.mp this.symm)
      | cons m t =>
        rw [hs] at hmem hlb
        simp only [List.headI] at hmem hlb
        by_cases hxm : lcLe x m = true
        · have hhead : (sortFiles (x :: xs)).headI = x := by
            simp [sortFiles, hs, insertFile, hxm]
          rw [hhead]
          refine ⟨List.mem_cons_self _ _, ?_⟩
          intro a ha
          rcases List.mem_cons.mp ha with rfl | ha
          · exact lcLe_refl a
          · exact lcLe_trans x m a hxm (hlb a ha)
        · have hhead : (sortFiles (x :: xs)).headI = m := by
            simp [sortFiles, hs, insertFile, hxm]
          rw [hhead]
          refine ⟨List.mem_cons_of_mem _ hmem, ?_⟩
          intro a ha
          rcases List.mem_cons.mp ha with rfl | ha
          · rcases lcLe_total a m with h | h
            · exact absurd h hxm
            · exact h
          · exact hlb a ha

/-! ## C5 — file discovery theorems -/

/-- C5 counterexample: the claim says that once recording has stopped, all
remaining unsent files are enqueued.  With recording stopped and a single
remaining unsent file of size 5 ≤ `MINIMUM_FILE_SIZE`, the tick marks the
file sent and clears the output directory but enqueues nothing — the file is
never delivered. -/
theorem undersized_last_file_not_enqueued :
    sendFilesTick ⟨true, [], false⟩ [⟨['a'], 5⟩]
      = (⟨false, [['a']], false⟩, none)
    ∧ (5 : Nat) ≤ MINIMUM_FILE_SIZE := by decide

/-- C5 amended: while the output directory is known: (i) if the directory is
unknown the tick is a no-op; (ii) while the session is still recording, a
tick with at most one unsent file takes nothing; (iii) when a file is taken
(more than one unsent file while recording, or any unsent file once
recording stopped), it is the lexicographically earliest unsent file, it is
marked sent, and it is enqueued exactly when its size exceeds
`MINIMUM_FILE_SIZE` — so at most one file is enqueued per tick and
undersized files are discarded rather than enqueued; (iv) once recording has
stopped and the last unsent file is taken, the output-directory reference is
cleared. -/
theorem file_discovery_policy (s : SendFilesState) (dirFiles : List FileEntry) :
    (s.outputDirKnown = false → sendFilesTick s dirFiles = (s, none))
    ∧ (s.outputDirKnown = true → s.recording = true →
        (unsentNames s dirFiles).length ≤ 1 →
        sendFilesTick s dirFiles = (s, none))
    ∧ (s.outputDirKnown = true →
        (1 < (unsentNames s dirFiles).length ∨
          (s.recording = false ∧ unsentNames s dirFiles ≠ [])) →
        ((sortFiles (unsentNames s dirFiles)).headI ∈ unsentNames s dirFiles
        ∧ (∀ g ∈ unsentNames s dirFiles,
            lcLe (sortFiles (unsentNames s dirFiles)).headI g = true)
        ∧ (sendFilesTick s dirFiles).1.filesSent
            = s.filesSent ++ [(sortFiles (unsentNames s dirFiles)).headI]
        ∧ (sendFilesTick s dirFiles).1.recording = s.recording
        ∧ (sendFilesTick s dirFiles).2
            = (if MINIMUM_FILE_SIZE
                  < sizeOfName dirFiles ((sortFiles (unsentNames s dirFiles)).headI)
               then some ((sortFiles (unsentNames s dirFiles)).headI) else none)))
    ∧ (s.outputDirKnown = true → s.recording = false →
        (unsentNames s dirFiles).length = 1 →
        (sendFilesTick s dirFiles).1.outputDirKnown = false) := by
  refine ⟨?_, ?_, ?_, ?_⟩
  · intro hout
    simp [sendFilesTick, hout]
  · intro hout hrec hlen
    simp only [sendFilesTick]
    rw [if_pos hout, if_neg]
    intro hc
    rcases hc.2 with h1 | h1
    · rw [sortFiles_length] at h1
      omega
    · rw [hrec] at h1
      simp at h1
  · intro hout hcond
    have hun : unsentNames s dirFiles ≠ [] := by
      rcases hcond with h | h
      · intro he
        rw [he] at h
        simp at h
      · exact h.2
    obtain ⟨hmem, hlb⟩ := sortFiles_head_min (unsentNames s dirFiles) hun
    have hne : sortFiles (unsentNames s dirFiles) ≠ [] := by
      intro he
      have := sortFiles_length (unsentNames s dirFiles)
      rw [he] at this
      exact hun (List.length_eq_zero.mp this.symm)
    have hcond2 : sortFiles (unsentNames s dirFiles) ≠ []
        ∧ (1 < (sortFiles (unsentNames s dirFiles)).length
            ∨ ¬ s.recording = true) := by
      refine ⟨hne, ?_⟩
      rcases hcond with h | h
      · left
        rw [sortFiles_length]
        exact h
      · right
        rw [h.1]
        simp
    refine ⟨hmem, hlb, ?_, ?_, ?_⟩ <;>
      · simp only [sendFilesTick]
        rw [if_pos hout, if_pos hcond2]
  · intro hout hrec hlen
    have hun : unsentNames s dirFiles ≠ [] := by
      intro he
      rw [he] at hlen
      simp at hlen
    have hne : sortFiles (unsentNames s dirFiles) ≠ [] := by
      intro he
      have := sortFiles_length (unsentNames s dirFiles)
      rw [he] at this
      exact hun (List.length_eq_zero.mp this.symm)
    have htail : (sortFiles (unsentNames s dirFiles)).tail = [] := by
      have hl := sortFiles_length (unsentNames s dirFiles)
      rw [hlen] at hl
      obtain ⟨a, ha⟩ := List.length_eq_one.mp hl
      rw [ha]
      rfl
    have hcond2 : sortFiles (unsentNames s dirFiles) ≠ []
        ∧ (1 < (sortFiles (unsentNames s dirFiles)).length
            ∨ ¬ s.recording = true) := by
      refine ⟨hne, Or.inr ?_⟩
      rw [hrec]
      simp
    simp only [sendFilesTick]
    rw [if_pos hout, if_pos hcond2]
    simp [htail, hrec]

/-- Witness for `file_discovery_policy`: two unsent files while recording
(only the earliest, `"a"`, is taken and enqueued), and the single last
unsent file once stopped (directory reference cleared). -/
theorem file_discovery_policy_witness :
    (sendFilesTick ⟨true, [], true⟩ [⟨['b'], 2000000⟩, ⟨['a'], 2000000⟩]).1.filesSent
        = [] ++ [(sortFiles (unsentNames ⟨true, [], true⟩
            [⟨['b'], 2000000⟩, ⟨['a'], 2000000⟩])).headI]
    ∧ (sortFiles (unsentNames ⟨true, [], true⟩
        [⟨['b'], 2000000⟩, ⟨['a'], 2000000⟩])).headI = ['a']
    ∧ (sendFilesTick ⟨true, [], true⟩ [⟨['b'], 2000000⟩, ⟨['a'], 2000000⟩]).2
        = some ['a']
    ∧ (sendFilesTick ⟨true, [['b']], false⟩ [⟨['b'], 2000000⟩, ⟨['a'], 2000000⟩]).1.outputDirKnown
        = false :=
  ⟨((file_discovery_policy ⟨true, [], true⟩
      [⟨['b'], 2000000⟩, ⟨['a'], 2000000⟩]).2.2.1 rfl (Or.inl (by decide))).2.2.1,
   by decide,
   by
    have h := ((file_discovery_policy ⟨true, [], true⟩
      [⟨['b'], 2000000⟩, ⟨['a'], 2000000⟩]).2.2.1 rfl (Or.inl (by decide))).2.2.2.2
    rw [h]
    decide,
   (file_discovery_policy ⟨true, [['b']], false⟩
      [⟨['b'], 2000000⟩, ⟨['a'], 2000000⟩]).2.2.2 rfl rfl (by decide)⟩

/-! ## C7 — database helper lemmas -/

lemma dbGet_dbSet (k : List Char) (v : VideoRecord) (db : VideoDb) :
    dbGet k (dbSet k v db) = some v := by
  induction db with
  | nil => simp [dbSet, dbGet]
  | cons p rest ih =>
    by_cases hp : p.1 = k
    · simp [dbSet, dbGet, hp]
    · simp [dbSet, dbGet, hp, ih]

/-- Fold invariant of the per-user send loop: starting from a database whose
record for `vid` is `⟨path, msgs⟩` and an already-written trace `tr`, the
final record accumulates every success pair and each success appends exactly
one snapshot whose record extends the message list by one pair. -/
lemma videoSendFold_trace (vid path : List Char)
    (us : List (Nat × Option Nat)) :
    ∀ (d : VideoDb) (tr : List VideoDb) (msgs : List (Nat × Nat)),
    dbGet vid d = some ⟨path, msgs⟩ →
    dbGet vid (us.foldl (videoSendStep vid) (d, tr)).1
        = some ⟨path, msgs ++ successPairs us⟩
    ∧ ((us.foldl (videoSendStep vid) (d, tr)).2).map (dbGet vid)
        = tr.map (dbGet vid)
          ++ (List.range (successPairs us).length).map
              (fun k => some ⟨path, msgs ++ (successPairs us).take (k + 1)⟩) := by
  induction us with
  | nil =>
    intro d tr msgs h
    simp [successPairs, h]
  | cons u us ih =>
    intro d tr msgs h
    cases hu : u.2 with
    | none =>
      have hstep : videoSendStep vid (d, tr) u = (d, tr) := by
        simp [videoSendStep, hu]
      have hsp : successPairs (u :: us) = successPairs us := by
        simp [successPairs, hu]
      simp only [List.foldl_cons, hstep, hsp]
      exact ih d tr msgs h
    | some mid =>
      have hstep : videoSendStep vid (d, tr) u
          = (dbSet vid ⟨path, msgs ++ [(u.1, mid)]⟩ d,
             tr ++ [dbSet vid ⟨path, msgs ++ [(u.1, mid)]⟩ d]) := by
        simp [videoSendStep, hu, h]
      have hsp : successPairs (u :: us) = (u.1, mid) :: successPairs us := by
        simp [successPairs, hu]
      have hd2 : dbGet vid (dbSet vid ⟨path, msgs ++ [(u.1, mid)]⟩ d)
          = some ⟨path, msgs ++ [(u.1, mid)]⟩ := dbGet_dbSet _ _ _
      obtain ⟨ih1, ih2⟩ := ih (dbSet vid ⟨path, msgs ++ [(u.1, mid)]⟩ d)
        (tr ++ [dbSet vid ⟨path, msgs ++ [(u.1, mid)]⟩ d])
        (msgs ++ [(u.1, mid)]) hd2
      simp only [List.foldl_cons, hstep, hsp]
      constructor
      · rw [ih1]
        simp
      · rw [ih2]
        simp only [List.length_cons, List.range_succ_eq_map, List.map_cons,
          List.map_map, List.map_append, List.take_succ_cons, List.take_zero,
          List.append_nil, List.map_cons]
        rw [hd2]
        simp only [List.append_assoc, List.cons_append, List.nil_append]
        simp [Function.comp, Nat.succ_eq_add_one]

/-! ## C7 — durability-first persistence of video records -/

/-- C7: for a Video job with generated id `vid`, the projections to `vid` of
the database snapshots written are exactly `⟨path, []⟩` (written before the
per-recipient loop starts, hence before any send attempt), then — after each
successful send, one write per success — `⟨path, pairs.take 1⟩`,
`⟨path, pairs.take 2⟩`, ..., and the final database holds
`⟨path, pairs⟩` where `pairs` lists the (recipient, message-reference) pairs
of the successful sends in order. -/
theorem video_record_durability (vid path : List Char) (db : VideoDb)
    (userResults : List (Nat × Option Nat)) :
    ((processVideoJob vid path db userResults).2).map (dbGet vid)
      = (List.range (1 + (successPairs userResults).length)).map
          (fun k => some ⟨path, (successPairs userResults).take k⟩)
    ∧ dbGet vid (processVideoJob vid path db userResults).1
      = some ⟨path, successPairs userResults⟩ := by
  have h0 : dbGet vid (dbSet vid ⟨path, []⟩ db) = some ⟨path, []⟩ :=
    dbGet_dbSet _ _ _
  obtain ⟨h1, h2⟩ := videoSendFold_trace vid path userResults
    (dbSet vid ⟨path, []⟩ db) [dbSet vid ⟨path, []⟩ db] [] h0
  simp only [processVideoJob]
  refine ⟨?_, by rw [h1]; simp⟩
  rw [h2]
  rw [Nat.add_comm, List.range_succ_eq_map]
  simp only [List.map_cons, List.map_map, List.take_zero, List.map_cons,
    List.cons_append, List.nil_append, h0]
  simp [Function.comp, Nat.succ_eq_add_one]

end HomelandSees
